import Mathlib

/-!
# Verification of the timething alignment codec (`src/timething/utils.py`)

Shallow embedding of the alignment persistence layer: the JSON record
produced by `alignment_meta` / `write_alignment`, the decoder
`read_alignment`, and the id-to-location mapping `alignment_filename`.

Modelling conventions:
* Python floats and ints are modelled as exact rationals (`ℚ`); claims
  about floating-point rounding become exact equalities here.
* Python's raising of exceptions is modelled with `Except PyError`:
  `ZeroDivisionError` for a zero denominator in `/`, `KeyError k` for a
  missing dict key `k` (the error Python raises on `d["k"]`), and a
  `typeError` for a value used at the wrong type.
* JSON values are a `JSON` inductive; `json.dumps` followed by
  `json.load` is treated as the identity on the `JSON` value, and the
  storage layer keyed by `alignment_filename` hands the decoder exactly
  the record the encoder wrote.
* The `align` module (the `Alignment` and `Segment` types and the two
  rescaling methods) is not part of the sources; those definitions are
  modelled from the spec and marked as such.
-/

namespace Timething

/-- Errors the embedded Python code can raise: division by zero, a missing
dictionary key (Python's `KeyError`, carrying the key), or a value of the
wrong type. -/
inductive PyError where
  | zeroDivisionError : PyError
  | keyError : String → PyError
  | typeError : PyError
deriving DecidableEq

/-- JSON values, as produced by `json.load`: strings, numbers (rationals,
covering Python's ints and floats), arrays and objects. Objects from
`json.load` have distinct keys; lookup takes the first match. -/
inductive JSON where
  | str : String → JSON
  | num : ℚ → JSON
  | arr : List JSON → JSON
  | obj : List (String × JSON) → JSON

/-- Python's `/` on numbers: true division, raising `ZeroDivisionError`
when the denominator is zero. -/
def pyDiv (a b : ℚ) : Except PyError ℚ :=
  if b = 0 then .error .zeroDivisionError else .ok (a / b)

/-- Modelled from the spec: `align.Segment`, a labeled time span with a
confidence score. `start`/`end` are numeric (frame index or seconds,
depending on context); the Python field `end` is `end_` here because
`end` is a Lean keyword. -/
structure Segment where
  label : String
  start : ℚ
  end_ : ℚ
  score : ℚ
deriving DecidableEq

/-- Modelled from the spec: `align.Alignment`, the full result for one
recording. Field order follows the positional constructor call in
`read_alignment`: id, log probs, recognised, trellis, backtracking path,
char segments, original char segments, word segments, original word
segments, then the scalar metadata. The three raw numeric arrays
(log-probabilities, trellis, backtracking path) are opaque to the codec
and modelled as plain lists of rationals. -/
structure Alignment where
  id : String
  log_probs : List ℚ
  recognised : String
  trellis : List ℚ
  path : List ℚ
  chars : List Segment
  chars_cleaned : List Segment
  words : List Segment
  words_cleaned : List Segment
  n_model_frames : ℚ
  n_audio_samples : ℚ
  sampling_rate : ℚ
  partition_score : ℚ

/-- Modelled from the spec: `Alignment.model_frames_to_seconds`, §4.1
`frames_to_seconds(n_frames) = n_frames * n_audio_samples / sampling_rate
/ n_model_frames`, with Python's left-associated division raising
`ZeroDivisionError` on a zero denominator. -/
def Alignment.model_frames_to_seconds (a : Alignment) (n_frames : ℚ) :
    Except PyError ℚ := do
  let x ← pyDiv (n_frames * a.n_audio_samples) a.sampling_rate
  pyDiv x a.n_model_frames

/-- Modelled from the spec: `Alignment.seconds_to_model_frames`, §4.1
`seconds_to_frames(n_seconds) = n_seconds * n_model_frames *
sampling_rate / n_audio_samples`. -/
def Alignment.seconds_to_model_frames (a : Alignment) (n_seconds : ℚ) :
    Except PyError ℚ :=
  pyDiv (n_seconds * a.n_model_frames * a.sampling_rate) a.n_audio_samples

/-- Rescaling formula of spec §4.1, written from the spec's words as pure
rational arithmetic, for stating claims against the source functions. -/
def frames_to_seconds (nmf nas sr f : ℚ) : ℚ :=
  f * nas / sr / nmf

/-- Inverse rescaling formula of spec §4.1, written from the spec's words
as pure rational arithmetic. -/
def seconds_to_frames (nmf nas sr s : ℚ) : ℚ :=
  s * nmf * sr / nas

/-- Left-to-right effectful map: a Python list comprehension whose body
may raise; the first raised error aborts the whole comprehension. -/
def mapExcept (f : α → Except PyError β) : List α → Except PyError (List β)
  | [] => .ok []
  | x :: xs => do
    let y ← f x
    let ys ← mapExcept f xs
    .ok (y :: ys)

/-- Python `d[k]` on a JSON value: a key lookup on an object (raising
`KeyError k` when absent), a `TypeError` on anything that is not an
object. -/
def dictGet (j : JSON) (k : String) : Except PyError JSON :=
  match j with
  | .obj kvs =>
    match kvs.lookup k with
    | some v => .ok v
    | none => .error (.keyError k)
  | _ => .error .typeError

/-- Use of a JSON value as a string. Python defers type errors to use
sites; the embedding surfaces them at extraction. -/
def asStr : JSON → Except PyError String
  | .str s => .ok s
  | _ => .error .typeError

/-- Use of a JSON value as a number. -/
def asNum : JSON → Except PyError ℚ
  | .num q => .ok q
  | _ => .error .typeError

/-- Use of a JSON value as an array (iteration in a list comprehension). -/
def asArr : JSON → Except PyError (List JSON)
  | .arr xs => .ok xs
  | _ => .error .typeError

/-- String-valued field access `d[k]`. -/
def getStr (j : JSON) (k : String) : Except PyError String :=
  dictGet j k >>= asStr

/-- Number-valued field access `d[k]`. -/
def getNum (j : JSON) (k : String) : Except PyError ℚ :=
  dictGet j k >>= asNum

/-- Array-valued field access `d[k]`. -/
def getArr (j : JSON) (k : String) : Except PyError (List JSON) :=
  dictGet j k >>= asArr

/-- The inner `alignments(segments)` comprehension of `alignment_meta`:
each segment becomes `{label, start, end, score}` with `start`/`end`
rescaled by `alignment.model_frames_to_seconds` (the dict literal
evaluates `label`, then the two rescalings, then `score`). -/
def alignments (alignment : Alignment) (segments : List Segment) :
    Except PyError (List JSON) :=
  mapExcept
    (fun s => do
      let st ← alignment.model_frames_to_seconds s.start
      let en ← alignment.model_frames_to_seconds s.end_
      .ok (JSON.obj
        [("label", .str s.label), ("start", .num st),
         ("end", .num en), ("score", .num s.score)]))
    segments

/-- Encoder `alignment_meta`: the record dictionary, with scalar metadata
copied verbatim and the four segment collections rescaled to seconds.
The Python dict literal evaluates its values in key order, so the four
(possibly raising) comprehensions run in the order chars, chars_cleaned,
words, words_cleaned; the scalar values are pure. -/
def alignment_meta (alignment : Alignment) : Except PyError JSON := do
  let chars ← alignments alignment alignment.chars
  let chars_cleaned ← alignments alignment alignment.chars_cleaned
  let words ← alignments alignment alignment.words
  let words_cleaned ← alignments alignment alignment.words_cleaned
  .ok (.obj
    [("id", .str alignment.id),
     ("n_model_frames", .num alignment.n_model_frames),
     ("n_audio_samples", .num alignment.n_audio_samples),
     ("sampling_rate", .num alignment.sampling_rate),
     ("partition_score", .num alignment.partition_score),
     ("recognised", .str alignment.recognised),
     ("chars", .arr chars),
     ("chars_cleaned", .arr chars_cleaned),
     ("words", .arr words),
     ("words_cleaned", .arr words_cleaned)])

/-- The Alignment value the `align.Alignment(...)` constructor call in
`read_alignment` produces: scalar metadata from the record, raw arrays
and segment collections empty. -/
def base_alignment (i r : String) (nmf nas sr ps : ℚ) : Alignment :=
  { id := i, log_probs := [], recognised := r, trellis := [], path := [],
    chars := [], chars_cleaned := [], words := [], words_cleaned := [],
    n_model_frames := nmf, n_audio_samples := nas, sampling_rate := sr,
    partition_score := ps }

/-- The inner `dict_to_segment(d)` of `read_alignment`: rebuild a Segment
from a record entry, rescaling `start`/`end` back to model frames with
`alignment.seconds_to_model_frames`. Keyword arguments evaluate in the
order start, end, label, score. -/
def dict_to_segment (alignment : Alignment) (d : JSON) :
    Except PyError Segment := do
  let st ← getNum d "start"
  let start ← alignment.seconds_to_model_frames st
  let en ← getNum d "end"
  let end_ ← alignment.seconds_to_model_frames en
  let label ← getStr d "label"
  let score ← getNum d "score"
  .ok { label := label, start := start, end_ := end_, score := score }

/-- One `[dict_to_segment(d) for d in alignment_dict[k]]` comprehension of
`read_alignment`. -/
def read_segments (alignment : Alignment) (alignment_dict : JSON)
    (k : String) : Except PyError (List Segment) := do
  let ds ← getArr alignment_dict k
  mapExcept (dict_to_segment alignment) ds

/-- Decoder `read_alignment`, handed the JSON record stored at
`alignment_filename(alignments_dir, alignment_id)`. The positional
constructor arguments evaluate left to right (id, recognised, then the
four scalars), constructing an Alignment with empty raw arrays and empty
segment lists; the four collections are then rebuilt and assigned in the
source's order chars_cleaned, chars, words_cleaned, words. -/
def read_alignment (alignment_dict : JSON) : Except PyError Alignment := do
  let i ← getStr alignment_dict "id"
  let recognised ← getStr alignment_dict "recognised"
  let n_model_frames ← getNum alignment_dict "n_model_frames"
  let n_audio_samples ← getNum alignment_dict "n_audio_samples"
  let sampling_rate ← getNum alignment_dict "sampling_rate"
  let partition_score ← getNum alignment_dict "partition_score"
  let alignment := base_alignment i recognised n_model_frames
    n_audio_samples sampling_rate partition_score
  let chars_cleaned ← read_segments alignment alignment_dict "chars_cleaned"
  let chars ← read_segments alignment alignment_dict "chars"
  let words_cleaned ← read_segments alignment alignment_dict "words_cleaned"
  let words ← read_segments alignment alignment_dict "words"
  .ok ({ alignment with
          chars_cleaned := chars_cleaned,
          chars := chars,
          words_cleaned := words_cleaned,
          words := words })

/-! ## Statement helpers

Pure descriptions of the shapes the codec produces, used to state the
claims; the theorems connect them to the executable codec above. -/

/-- A `{label, start, end, score}` record entry for a segment whose
`start`/`end` already carry the values to be stored. -/
def segment_record (s : Segment) : JSON :=
  .obj [("label", .str s.label), ("start", .num s.start),
        ("end", .num s.end_), ("score", .num s.score)]

/-- A segment as encode stores it: `start`/`end` pushed through the
spec's `frames_to_seconds`, `label`/`score` verbatim. -/
def encodeSegment (a : Alignment) (s : Segment) : Segment :=
  { label := s.label,
    start := frames_to_seconds a.n_model_frames a.n_audio_samples a.sampling_rate s.start,
    end_ := frames_to_seconds a.n_model_frames a.n_audio_samples a.sampling_rate s.end_,
    score := s.score }

/-- A segment as decode rebuilds it: `start`/`end` pushed through the
spec's `seconds_to_frames`, `label`/`score` verbatim. -/
def decodeSegment (a : Alignment) (s : Segment) : Segment :=
  { label := s.label,
    start := seconds_to_frames a.n_model_frames a.n_audio_samples a.sampling_rate s.start,
    end_ := seconds_to_frames a.n_model_frames a.n_audio_samples a.sampling_rate s.end_,
    score := s.score }

/-- A record of the exact shape `alignment_meta` emits, with the four
collection payloads supplied as JSON arrays. -/
def mkRecord (i r : String) (nmf nas sr ps : ℚ)
    (chars chars_cleaned words words_cleaned : List JSON) : JSON :=
  .obj
    [("id", .str i),
     ("n_model_frames", .num nmf),
     ("n_audio_samples", .num nas),
     ("sampling_rate", .num sr),
     ("partition_score", .num ps),
     ("recognised", .str r),
     ("chars", .arr chars),
     ("chars_cleaned", .arr chars_cleaned),
     ("words", .arr words),
     ("words_cleaned", .arr words_cleaned)]

/-! ## The id-to-location mapping (`alignment_filename`)

`pathlib.PurePosixPath` semantics, as far as the mapping uses them: a
path is an absolute flag plus a list of components; parsing a string
splits on `/` and drops empty and `.` pieces (`..` is kept); `p / s`
with a relative `s` appends `s`'s components and with an absolute `s`
replaces `p`; `.name` is the last component (empty for a bare root) and
`.parent` drops it. Components are kept as `List Char` so that their
algebra stays list algebra. -/

/-- A pure POSIX path: absolute flag plus components. -/
structure PyPath where
  absolute : Bool
  components : List (List Char)
deriving DecidableEq

/-- Split a character list at every `/`, accumulating the current piece. -/
def splitSlash (cur : List Char) : List Char → List (List Char)
  | [] => [cur]
  | c :: cs => if c = '/' then cur :: splitSlash [] cs else splitSlash (cur ++ [c]) cs

/-- Parse a string into a path, the way `pathlib` normalises it: absolute
iff it starts with `/`; empty pieces (doubled or trailing slashes) and
`.` pieces are dropped. -/
def parsePyPath (s : String) : PyPath :=
  { absolute := decide (s.data.head? = some '/'),
    components := (splitSlash [] s.data).filter
      (fun c => decide (c ≠ [] ∧ c ≠ ['.'])) }

/-- Python `p / s` for a path `p` and string `s`. -/
def PyPath.divString (p : PyPath) (s : String) : PyPath :=
  let q := parsePyPath s
  if q.absolute then q else ⟨p.absolute, p.components ++ q.components⟩

/-- Python `p.name`: the final component, empty when there is none. -/
def PyPath.name (p : PyPath) : List Char :=
  p.components.getLast?.getD []

/-- Python `p.parent`: the path without its final component. -/
def PyPath.parent (p : PyPath) : PyPath :=
  ⟨p.absolute, p.components.dropLast⟩

/-- Source `alignment_filename(path, id)`: `filename = path / id`, then
`filename.parent / (filename.name + ".json")`. -/
def alignment_filename (path : PyPath) (id : String) : PyPath :=
  let filename := path.divString id
  filename.parent.divString (String.mk (filename.name ++ ".json".data))

/-- An id string in normal form: relative, at least one component, and
recoverable from its parsed components (no empty or `.` pieces were
dropped in parsing, so the string is the `/`-join of its components). -/
def NormalId (s : String) : Prop :=
  (parsePyPath s).absolute = false ∧
  (parsePyPath s).components ≠ [] ∧
  s.data = List.intercalate ['/'] (parsePyPath s).components

instance (s : String) : Decidable (NormalId s) := by
  unfold NormalId; infer_instance

/-! ## Helper lemmas -/

@[simp]
theorem ok_bind (a : α) (f : α → Except PyError β) :
    (Except.ok a >>= f) = f a := rfl

@[simp]
theorem error_bind (e : PyError) (f : α → Except PyError β) :
    ((Except.error e : Except PyError α) >>= f) = .error e := rfl

/-- The source rescaling method refines the spec's `frames_to_seconds`
formula whenever the two denominators are nonzero. -/
theorem model_frames_to_seconds_eq (a : Alignment) (f : ℚ)
    (h1 : a.sampling_rate ≠ 0) (h2 : a.n_model_frames ≠ 0) :
    a.model_frames_to_seconds f =
      .ok (frames_to_seconds a.n_model_frames a.n_audio_samples a.sampling_rate f) := by
  simp [Alignment.model_frames_to_seconds, pyDiv, h1, h2, frames_to_seconds]

/-- The source inverse rescaling method refines the spec's
`seconds_to_frames` formula whenever `n_audio_samples` is nonzero. -/
theorem seconds_to_model_frames_eq (a : Alignment) (s : ℚ)
    (h : a.n_audio_samples ≠ 0) :
    a.seconds_to_model_frames s =
      .ok (seconds_to_frames a.n_model_frames a.n_audio_samples a.sampling_rate s) := by
  simp [Alignment.seconds_to_model_frames, pyDiv, h, seconds_to_frames]

/-- Exact inverse law for the two rescaling formulas. -/
theorem seconds_to_frames_frames_to_seconds (nmf nas sr f : ℚ)
    (h1 : nmf ≠ 0) (h2 : sr ≠ 0) (h3 : nas ≠ 0) :
    seconds_to_frames nmf nas sr (frames_to_seconds nmf nas sr f) = f := by
  unfold seconds_to_frames frames_to_seconds
  field_simp
  ring

theorem mapExcept_ok {f : α → Except PyError β} {g : α → β} :
    ∀ {l : List α}, (∀ x ∈ l, f x = .ok (g x)) →
      mapExcept f l = .ok (l.map g) := by
  intro l h
  induction l with
  | nil => rfl
  | cons x xs ih =>
    simp only [mapExcept, h x (by simp), ok_bind,
      ih (fun y hy => h y (by simp [hy])), List.map_cons]

theorem mapExcept_length {f : α → Except PyError β} :
    ∀ {l : List α} {l' : List β}, mapExcept f l = .ok l' →
      l'.length = l.length := by
  intro l
  induction l with
  | nil => intro l' h; simp only [mapExcept] at h; cases h; rfl
  | cons x xs ih =>
    intro l' h
    simp only [mapExcept] at h
    cases hf : f x with
    | error e => rw [hf] at h; simp at h
    | ok y =>
      rw [hf, ok_bind] at h
      cases hm : mapExcept f xs with
      | error e => rw [hm] at h; simp at h
      | ok ys =>
        rw [hm, ok_bind] at h
        cases h
        simp [ih hm]

theorem mapExcept_congr {f : α → Except PyError β} :
    ∀ {xs ys : List α}, List.Forall₂ (fun x y => f x = f y) xs ys →
      mapExcept f xs = mapExcept f ys := by
  intro xs ys h
  induction h with
  | nil => rfl
  | cons hxy _ ih => simp only [mapExcept, hxy, ih]

/-- The encode comprehension, in closed form: every segment becomes the
`{label, start, end, score}` entry with `start`/`end` rescaled. -/
theorem alignments_eq (a : Alignment) (l : List Segment)
    (h1 : a.sampling_rate ≠ 0) (h2 : a.n_model_frames ≠ 0) :
    alignments a l = .ok (l.map (fun s => segment_record (encodeSegment a s))) := by
  unfold alignments
  apply mapExcept_ok
  intro s _
  rw [model_frames_to_seconds_eq a s.start h1 h2, ok_bind,
    model_frames_to_seconds_eq a s.end_ h1 h2, ok_bind]
  rfl

/-- The encoder, in closed form: `alignment_meta` succeeds on any
alignment whose `sampling_rate` and `n_model_frames` are nonzero and
produces exactly the `mkRecord` shape. -/
theorem alignment_meta_eq (a : Alignment)
    (h1 : a.sampling_rate ≠ 0) (h2 : a.n_model_frames ≠ 0) :
    alignment_meta a = .ok (mkRecord a.id a.recognised
      a.n_model_frames a.n_audio_samples a.sampling_rate a.partition_score
      (a.chars.map (fun s => segment_record (encodeSegment a s)))
      (a.chars_cleaned.map (fun s => segment_record (encodeSegment a s)))
      (a.words.map (fun s => segment_record (encodeSegment a s)))
      (a.words_cleaned.map (fun s => segment_record (encodeSegment a s)))) := by
  unfold alignment_meta
  rw [alignments_eq a a.chars h1 h2, ok_bind,
    alignments_eq a a.chars_cleaned h1 h2, ok_bind,
    alignments_eq a a.words h1 h2, ok_bind,
    alignments_eq a a.words_cleaned h1 h2, ok_bind]
  rfl

/-- Decoding one record entry of the `segment_record` shape. -/
theorem dict_to_segment_record (a : Alignment) (s : Segment)
    (h : a.n_audio_samples ≠ 0) :
    dict_to_segment a (segment_record s) = .ok (decodeSegment a s) := by
  unfold dict_to_segment
  have hst : getNum (segment_record s) "start" = .ok s.start := rfl
  have hen : getNum (segment_record s) "end" = .ok s.end_ := rfl
  have hlb : getStr (segment_record s) "label" = .ok s.label := rfl
  have hsc : getNum (segment_record s) "score" = .ok s.score := rfl
  rw [hst, ok_bind, seconds_to_model_frames_eq a s.start h, ok_bind,
    hen, ok_bind, seconds_to_model_frames_eq a s.end_ h, ok_bind,
    hlb, ok_bind, hsc, ok_bind]
  rfl

/-- The decoder on a record of the `mkRecord` shape, given the outcome of
the four collection comprehensions. -/
theorem read_alignment_mkRecord (i r : String) (nmf nas sr ps : ℚ)
    (cj ccj wj wcj : List JSON) (cs ccs ws wcs : List Segment)
    (hcc : mapExcept (dict_to_segment (base_alignment i r nmf nas sr ps)) ccj = .ok ccs)
    (hc : mapExcept (dict_to_segment (base_alignment i r nmf nas sr ps)) cj = .ok cs)
    (hwc : mapExcept (dict_to_segment (base_alignment i r nmf nas sr ps)) wcj = .ok wcs)
    (hw : mapExcept (dict_to_segment (base_alignment i r nmf nas sr ps)) wj = .ok ws) :
    read_alignment (mkRecord i r nmf nas sr ps cj ccj wj wcj) =
      .ok { base_alignment i r nmf nas sr ps with
            chars := cs, chars_cleaned := ccs, words := ws, words_cleaned := wcs } := by
  have g1 : getStr (mkRecord i r nmf nas sr ps cj ccj wj wcj) "id" = .ok i := rfl
  have g2 : getStr (mkRecord i r nmf nas sr ps cj ccj wj wcj) "recognised" = .ok r := rfl
  have g3 : getNum (mkRecord i r nmf nas sr ps cj ccj wj wcj) "n_model_frames" = .ok nmf := rfl
  have g4 : getNum (mkRecord i r nmf nas sr ps cj ccj wj wcj) "n_audio_samples" = .ok nas := rfl
  have g5 : getNum (mkRecord i r nmf nas sr ps cj ccj wj wcj) "sampling_rate" = .ok sr := rfl
  have g6 : getNum (mkRecord i r nmf nas sr ps cj ccj wj wcj) "partition_score" = .ok ps := rfl
  have a1 : getArr (mkRecord i r nmf nas sr ps cj ccj wj wcj) "chars" = .ok cj := rfl
  have a2 : getArr (mkRecord i r nmf nas sr ps cj ccj wj wcj) "chars_cleaned" = .ok ccj := rfl
  have a3 : getArr (mkRecord i r nmf nas sr ps cj ccj wj wcj) "words" = .ok wj := rfl
  have a4 : getArr (mkRecord i r nmf nas sr ps cj ccj wj wcj) "words_cleaned" = .ok wcj := rfl
  simp only [read_alignment, read_segments, g1, g2, g3, g4, g5, g6,
    a1, a2, a3, a4, ok_bind, hcc, hc, hwc, hw]

theorem mapExcept_map {f : β → Except PyError γ} {g : α → β} :
    ∀ {l : List α}, mapExcept f (l.map g) = mapExcept (fun x => f (g x)) l := by
  intro l
  induction l with
  | nil => rfl
  | cons x xs ih => simp only [List.map_cons, mapExcept, ih]

/-- Decoding a list of `segment_record` entries rebuilds each segment
with the `seconds_to_frames` formula. -/
theorem mapExcept_dict_to_segment_record (b : Alignment) (l : List Segment)
    (h : b.n_audio_samples ≠ 0) :
    mapExcept (dict_to_segment b) (l.map segment_record) =
      .ok (l.map (decodeSegment b)) := by
  rw [mapExcept_map]
  exact mapExcept_ok (fun s _ => dict_to_segment_record b s h)

/-- Per-segment round trip: decoding what encode stored restores the
original frame-unit segment exactly, for any decoder alignment carrying
the same three scalars. -/
theorem decodeSegment_encodeSegment (a b : Alignment) (s : Segment)
    (hb1 : b.n_model_frames = a.n_model_frames)
    (hb2 : b.n_audio_samples = a.n_audio_samples)
    (hb3 : b.sampling_rate = a.sampling_rate)
    (h1 : a.n_model_frames ≠ 0) (h2 : a.sampling_rate ≠ 0)
    (h3 : a.n_audio_samples ≠ 0) :
    decodeSegment b (encodeSegment a s) = s := by
  unfold decodeSegment encodeSegment
  rw [hb1, hb2, hb3,
    seconds_to_frames_frames_to_seconds _ _ _ _ h1 h2 h3,
    seconds_to_frames_frames_to_seconds _ _ _ _ h1 h2 h3]

/-! ## The claims -/

/-- C1: decoding the record produced by encoding a non-degenerate
Alignment (same root and id, so the decoder is handed exactly the record
the encoder wrote at `alignment_filename(root, id)`) restores the
Alignment exactly, except that the three raw numeric arrays come back
empty: scalar metadata, labels and scores verbatim, and `start`/`end`
exactly equal in the exact-rational model (hence within any
floating-point rounding tolerance). -/
theorem c1_round_trip (a : Alignment)
    (h1 : 0 < a.n_model_frames) (h2 : 0 < a.sampling_rate)
    (h3 : 0 < a.n_audio_samples) :
    (alignment_meta a >>= read_alignment) =
      .ok { a with log_probs := [], trellis := [], path := [] } := by
  have h1' := ne_of_gt h1
  have h2' := ne_of_gt h2
  have h3' := ne_of_gt h3
  rw [alignment_meta_eq a h2' h1', ok_bind]
  have hmap : ∀ l : List Segment,
      mapExcept (dict_to_segment (base_alignment a.id a.recognised
          a.n_model_frames a.n_audio_samples a.sampling_rate a.partition_score))
        (l.map (fun s => segment_record (encodeSegment a s))) = .ok l := by
    intro l
    have : l.map (fun s => segment_record (encodeSegment a s)) =
        (l.map (encodeSegment a)).map segment_record := by
      simp [List.map_map]
    rw [this, mapExcept_dict_to_segment_record (base_alignment a.id a.recognised
        a.n_model_frames a.n_audio_samples a.sampling_rate a.partition_score)
        (l.map (encodeSegment a)) h3', List.map_map]
    have hco : (decodeSegment (base_alignment a.id a.recognised
        a.n_model_frames a.n_audio_samples a.sampling_rate a.partition_score) ∘
          encodeSegment a) = (fun s : Segment => s) := by
      funext s
      exact decodeSegment_encodeSegment a _ s rfl rfl rfl h1' h2' h3'
    rw [hco]
    simp
  rw [read_alignment_mkRecord a.id a.recognised a.n_model_frames
    a.n_audio_samples a.sampling_rate a.partition_score _ _ _ _
    a.chars a.chars_cleaned a.words a.words_cleaned
    (hmap a.chars_cleaned) (hmap a.chars) (hmap a.words_cleaned) (hmap a.words)]
  rfl

/-- Concrete alignment used by the witnesses: id `audio/one.mp3`,
10 model frames, 160000 audio samples at 16000 Hz, and the spec §8.5
words collection `[("a",0,2,0.9), ("b",2,5,0.8)]`. -/
def W1 : Alignment :=
  { id := "audio/one.mp3", log_probs := [], recognised := "hello world",
    trellis := [], path := [],
    chars := [⟨"h", 0, 2, 9/10⟩, ⟨"i", 2, 5, 4/5⟩],
    chars_cleaned := [⟨"h", 0, 2, 9/10⟩],
    words := [⟨"a", 0, 2, 9/10⟩, ⟨"b", 2, 5, 4/5⟩],
    words_cleaned := [⟨"ab", 0, 5, 1/2⟩],
    n_model_frames := 10, n_audio_samples := 160000,
    sampling_rate := 16000, partition_score := 3/4 }

theorem c1_round_trip_witness :
    0 < W1.n_model_frames ∧ 0 < W1.sampling_rate ∧ 0 < W1.n_audio_samples ∧
    (alignment_meta W1 >>= read_alignment) =
      .ok { W1 with log_probs := [], trellis := [], path := [] } :=
  ⟨by decide, by decide, by decide,
    c1_round_trip W1 (by decide) (by decide) (by decide)⟩

/-- C2: for a non-degenerate Alignment and any frame count `f` in
`[0, n_model_frames]`, converting frames to seconds and back returns `f`
exactly in the exact-rational model (so with no error beyond the numeric
precision used). -/
theorem c2_rescaling_inverse (a : Alignment) (f : ℚ)
    (h1 : 0 < a.n_model_frames) (h2 : 0 < a.sampling_rate)
    (h3 : 0 < a.n_audio_samples) (_hf0 : 0 ≤ f) (_hf1 : f ≤ a.n_model_frames) :
    (a.model_frames_to_seconds f >>= a.seconds_to_model_frames) = .ok f := by
  rw [model_frames_to_seconds_eq a f (ne_of_gt h2) (ne_of_gt h1), ok_bind,
    seconds_to_model_frames_eq a _ (ne_of_gt h3),
    seconds_to_frames_frames_to_seconds _ _ _ _
      (ne_of_gt h1) (ne_of_gt h2) (ne_of_gt h3)]

theorem c2_rescaling_inverse_witness :
    0 < W1.n_model_frames ∧ 0 < W1.sampling_rate ∧ 0 < W1.n_audio_samples ∧
    0 ≤ (7 : ℚ) ∧ (7 : ℚ) ≤ W1.n_model_frames ∧
    (W1.model_frames_to_seconds 7 >>= W1.seconds_to_model_frames) = .ok 7 :=
  ⟨by decide, by decide, by decide, by decide, by decide,
    c2_rescaling_inverse W1 7 (by decide) (by decide) (by decide)
      (by decide) (by decide)⟩

/-- C6: on a non-degenerate Alignment (encode only ever divides by
`sampling_rate` and `n_model_frames`), `alignment_meta` produces exactly
the record with `id`, `n_model_frames`, `n_audio_samples`,
`sampling_rate`, `partition_score` and `recognised` copied verbatim, and
each of the four collections mapped, in order, to `{label, start, end,
score}` objects whose `start`/`end` are the spec's `frames_to_seconds`
of the segment's `start`/`end` and whose `label`/`score` are verbatim
(`mkRecord`, `segment_record` and `encodeSegment` spell this out). -/
theorem c6_encode_record (a : Alignment)
    (h1 : a.sampling_rate ≠ 0) (h2 : a.n_model_frames ≠ 0) :
    alignment_meta a = .ok (mkRecord a.id a.recognised
      a.n_model_frames a.n_audio_samples a.sampling_rate a.partition_score
      (a.chars.map (fun s => segment_record (encodeSegment a s)))
      (a.chars_cleaned.map (fun s => segment_record (encodeSegment a s)))
      (a.words.map (fun s => segment_record (encodeSegment a s)))
      (a.words_cleaned.map (fun s => segment_record (encodeSegment a s)))) :=
  alignment_meta_eq a h1 h2

theorem c6_encode_record_witness :
    W1.sampling_rate ≠ 0 ∧ W1.n_model_frames ≠ 0 ∧
    alignment_meta W1 = .ok (mkRecord W1.id W1.recognised
      W1.n_model_frames W1.n_audio_samples W1.sampling_rate W1.partition_score
      (W1.chars.map (fun s => segment_record (encodeSegment W1 s)))
      (W1.chars_cleaned.map (fun s => segment_record (encodeSegment W1 s)))
      (W1.words.map (fun s => segment_record (encodeSegment W1 s)))
      (W1.words_cleaned.map (fun s => segment_record (encodeSegment W1 s)))) :=
  ⟨by decide, by decide, c6_encode_record W1 (by decide) (by decide)⟩

/-- C7: on a conforming record (every documented key present and of the
documented shape, with `n_audio_samples` nonzero — the only denominator
decode ever divides by), `read_alignment` returns an Alignment whose
scalar metadata is copied verbatim, whose three raw numeric arrays are
empty (`base_alignment`), and whose four collections are rebuilt by the
spec's `seconds_to_frames` on each `start`/`end` with `label`/`score`
verbatim (`decodeSegment`). -/
theorem c7_decode_record (i r : String) (nmf nas sr ps : ℚ)
    (cs ccs ws wcs : List Segment) (h : nas ≠ 0) :
    read_alignment (mkRecord i r nmf nas sr ps
        (cs.map segment_record) (ccs.map segment_record)
        (ws.map segment_record) (wcs.map segment_record)) =
      .ok { base_alignment i r nmf nas sr ps with
            chars := cs.map (decodeSegment (base_alignment i r nmf nas sr ps)),
            chars_cleaned := ccs.map (decodeSegment (base_alignment i r nmf nas sr ps)),
            words := ws.map (decodeSegment (base_alignment i r nmf nas sr ps)),
            words_cleaned := wcs.map (decodeSegment (base_alignment i r nmf nas sr ps)) } :=
  read_alignment_mkRecord i r nmf nas sr ps _ _ _ _ _ _ _ _
    (mapExcept_dict_to_segment_record _ ccs h)
    (mapExcept_dict_to_segment_record _ cs h)
    (mapExcept_dict_to_segment_record _ wcs h)
    (mapExcept_dict_to_segment_record _ ws h)

theorem c7_decode_record_witness :
    (160000 : ℚ) ≠ 0 ∧
    read_alignment (mkRecord "audio/one.mp3" "hi" 10 160000 16000 (1/2)
        ([⟨"a", 0, 2, 9/10⟩].map segment_record) ([].map segment_record)
        ([⟨"b", 2, 5, 4/5⟩].map segment_record) ([].map segment_record)) =
      .ok { base_alignment "audio/one.mp3" "hi" 10 160000 16000 (1/2) with
            chars := [⟨"a", 0, 2, 9/10⟩].map
              (decodeSegment (base_alignment "audio/one.mp3" "hi" 10 160000 16000 (1/2))),
            chars_cleaned := [],
            words := [⟨"b", 2, 5, 4/5⟩].map
              (decodeSegment (base_alignment "audio/one.mp3" "hi" 10 160000 16000 (1/2))),
            words_cleaned := [] } :=
  ⟨by decide, c7_decode_record "audio/one.mp3" "hi" 10 160000 16000 (1/2)
    [⟨"a", 0, 2, 9/10⟩] [] [⟨"b", 2, 5, 4/5⟩] [] (by decide)⟩

/-- C8: the encode comprehension maps the given collection element by
element, so the encoded sequence has the same length and order as the
input (no re-sorting); adjacency such as "second segment starts where
the first ends" is preserved because each entry is the image of the
corresponding input segment under the same `frames_to_seconds`. -/
theorem c8_order_preservation (a : Alignment)
    (h1 : a.sampling_rate ≠ 0) (h2 : a.n_model_frames ≠ 0) :
    alignments a a.words =
      .ok (a.words.map (fun s => segment_record (encodeSegment a s))) ∧
    (a.words.map (fun s => segment_record (encodeSegment a s))).length =
      a.words.length :=
  ⟨alignments_eq a a.words h1 h2, List.length_map _ _⟩

theorem c8_order_preservation_witness :
    W1.sampling_rate ≠ 0 ∧ W1.n_model_frames ≠ 0 ∧
    (alignments W1 W1.words =
      .ok (W1.words.map (fun s => segment_record (encodeSegment W1 s))) ∧
     (W1.words.map (fun s => segment_record (encodeSegment W1 s))).length =
      W1.words.length) ∧
    W1.words.map (fun s => segment_record (encodeSegment W1 s)) =
      [.obj [("label", .str "a"), ("start", .num 0),
             ("end", .num 2), ("score", .num (9/10))],
       .obj [("label", .str "b"), ("start", .num 2),
             ("end", .num 5), ("score", .num (4/5))]] :=
  ⟨by decide, by decide, c8_order_preservation W1 (by decide) (by decide),
    by norm_num [W1, encodeSegment, segment_record, frames_to_seconds]⟩

/-- A degenerate alignment with `n_model_frames = 0` and no segments:
`base_alignment` leaves all four collections empty. -/
def A0 : Alignment := base_alignment "one.mp3" "" 0 160000 16000 0

/-- A record with `n_model_frames = 0` and a non-empty collection. -/
def D0 : JSON :=
  mkRecord "one.mp3" "" 0 160000 16000 0 [] [segment_record ⟨"x", 1, 2, 1⟩] [] []

/-- C3 counterexample: no degeneracy check exists. Encoding a degenerate
Alignment (`n_model_frames = 0`) with empty segment collections
succeeds, and decoding a record with `n_model_frames = 0` also succeeds
(decode divides only by `n_audio_samples`), so neither fails with a
`DegenerateAlignment` error — no such error exists in the code. -/
theorem c3_counterexample :
    A0.n_model_frames = 0 ∧ (alignment_meta A0).isOk = true ∧
    (read_alignment D0).isOk = true :=
  ⟨rfl, rfl, rfl⟩

/-- The encode-side rescale raises `ZeroDivisionError` when either of
its two denominators is zero. -/
theorem model_frames_to_seconds_degenerate (a : Alignment) (f : ℚ)
    (h : a.sampling_rate = 0 ∨ a.n_model_frames = 0) :
    a.model_frames_to_seconds f = .error .zeroDivisionError := by
  rcases h with h | h
  · simp [Alignment.model_frames_to_seconds, pyDiv, h]
  · by_cases hsr : a.sampling_rate = 0 <;>
      simp [Alignment.model_frames_to_seconds, pyDiv, hsr, h]

/-- The decode-side rescale raises `ZeroDivisionError` when
`n_audio_samples` is zero. -/
theorem dict_to_segment_zero_nas (b : Alignment) (s : Segment)
    (hb : b.n_audio_samples = 0) :
    dict_to_segment b (segment_record s) = .error .zeroDivisionError := by
  have hst : getNum (segment_record s) "start" = .ok s.start := rfl
  simp only [dict_to_segment, hst, ok_bind,
    Alignment.seconds_to_model_frames, pyDiv, hb, if_pos, error_bind]

theorem mapExcept_cons_error {f : α → Except PyError β} {x : α} {xs : List α}
    {e : PyError} (h : f x = .error e) :
    mapExcept f (x :: xs) = .error e := by
  simp [mapExcept, h]

/-- C3 amended: the code performs no degeneracy check and has no
`DegenerateAlignment` error. Instead, a zero denominator surfaces as a
`ZeroDivisionError` raised during rescaling, and only when a rescaling
actually runs: encode fails iff it rescales a segment with
`sampling_rate = 0` or `n_model_frames = 0` (here: a non-empty `chars`),
and decode fails iff it rescales a segment with `n_audio_samples = 0`
(here: a non-empty `chars_cleaned` collection); with no segments both
succeed, and decode with `n_model_frames = 0` alone succeeds. No NaN or
Infinity is ever produced — the operation errors instead. -/
theorem c3_degenerate_rejection (a : Alignment)
    (i r : String) (nmf sr ps : ℚ) (s : Segment)
    (cj wj wcj rest : List JSON)
    (hdeg : a.sampling_rate = 0 ∨ a.n_model_frames = 0)
    (hchars : a.chars ≠ []) :
    alignment_meta a = .error .zeroDivisionError ∧
    read_alignment (mkRecord i r nmf 0 sr ps cj
        (segment_record s :: rest) wj wcj) =
      .error .zeroDivisionError := by
  constructor
  · obtain ⟨c, cs, hcs⟩ := List.exists_cons_of_ne_nil hchars
    have herr : alignments a a.chars = .error .zeroDivisionError := by
      rw [hcs]
      apply mapExcept_cons_error
      simp only [model_frames_to_seconds_degenerate a c.start hdeg, error_bind]
    simp only [alignment_meta, herr, error_bind]
  · have g1 : getStr (mkRecord i r nmf 0 sr ps cj
        (segment_record s :: rest) wj wcj) "id" = .ok i := rfl
    have g2 : getStr (mkRecord i r nmf 0 sr ps cj
        (segment_record s :: rest) wj wcj) "recognised" = .ok r := rfl
    have g3 : getNum (mkRecord i r nmf 0 sr ps cj
        (segment_record s :: rest) wj wcj) "n_model_frames" = .ok nmf := rfl
    have g4 : getNum (mkRecord i r nmf 0 sr ps cj
        (segment_record s :: rest) wj wcj) "n_audio_samples" = .ok 0 := rfl
    have g5 : getNum (mkRecord i r nmf 0 sr ps cj
        (segment_record s :: rest) wj wcj) "sampling_rate" = .ok sr := rfl
    have g6 : getNum (mkRecord i r nmf 0 sr ps cj
        (segment_record s :: rest) wj wcj) "partition_score" = .ok ps := rfl
    have a2 : getArr (mkRecord i r nmf 0 sr ps cj
        (segment_record s :: rest) wj wcj) "chars_cleaned" =
        .ok (segment_record s :: rest) := rfl
    have herr : mapExcept (dict_to_segment (base_alignment i r nmf 0 sr ps))
        (segment_record s :: rest) = .error .zeroDivisionError :=
      mapExcept_cons_error (dict_to_segment_zero_nas _ s rfl)
    simp only [read_alignment, read_segments, g1, g2, g3, g4, g5, g6,
      a2, ok_bind, herr, error_bind]

theorem c3_degenerate_rejection_witness :
    ({ W1 with sampling_rate := 0 }.sampling_rate = 0 ∨
     { W1 with sampling_rate := 0 }.n_model_frames = 0) ∧
    { W1 with sampling_rate := 0 }.chars ≠ [] ∧
    (alignment_meta { W1 with sampling_rate := 0 } =
        .error .zeroDivisionError ∧
     read_alignment (mkRecord "one.mp3" "" 10 0 16000 0 []
        (segment_record ⟨"x", 1, 2, 1⟩ :: []) [] []) =
      .error .zeroDivisionError) :=
  ⟨Or.inl rfl, by decide,
    c3_degenerate_rejection { W1 with sampling_rate := 0 }
      "one.mp3" "" 10 16000 0 ⟨"x", 1, 2, 1⟩ [] [] [] []
      (Or.inl rfl) (by decide)⟩

/-- C4: a record missing `sampling_rate` (with the fields the decoder
reads before it present and typed) fails decode with the `KeyError`
naming exactly that field — the code's malformed-record error, which
identifies the missing key; no default is substituted. -/
theorem c4_missing_field (kvs : List (String × JSON)) (i r : String)
    (nmf nas : ℚ)
    (hid : kvs.lookup "id" = some (.str i))
    (hrec : kvs.lookup "recognised" = some (.str r))
    (hnmf : kvs.lookup "n_model_frames" = some (.num nmf))
    (hnas : kvs.lookup "n_audio_samples" = some (.num nas))
    (hsr : kvs.lookup "sampling_rate" = none) :
    read_alignment (.obj kvs) = .error (.keyError "sampling_rate") := by
  simp only [read_alignment, getStr, getNum, dictGet,
    hid, hrec, hnmf, hnas, hsr, asStr, asNum, ok_bind, error_bind]

/-- A record missing the `sampling_rate` key. -/
def D4 : List (String × JSON) :=
  [("id", .str "one.mp3"), ("recognised", .str "hi"),
   ("n_model_frames", .num 10), ("n_audio_samples", .num 160000),
   ("partition_score", .num 0), ("chars", .arr []),
   ("chars_cleaned", .arr []), ("words", .arr []),
   ("words_cleaned", .arr [])]

theorem c4_missing_field_witness :
    D4.lookup "id" = some (.str "one.mp3") ∧
    D4.lookup "recognised" = some (.str "hi") ∧
    D4.lookup "n_model_frames" = some (.num 10) ∧
    D4.lookup "n_audio_samples" = some (.num 160000) ∧
    D4.lookup "sampling_rate" = none ∧
    read_alignment (.obj D4) = .error (.keyError "sampling_rate") :=
  ⟨rfl, rfl, rfl, rfl, rfl,
    c4_missing_field D4 "one.mp3" "hi" 10 160000 rfl rfl rfl rfl rfl⟩

theorem bind_eq_ok {x : Except PyError α} {f : α → Except PyError β} {b : β}
    (h : (x >>= f) = .ok b) : ∃ a, x = .ok a ∧ f a = .ok b := by
  cases x with
  | ok a => exact ⟨a, rfl, h⟩
  | error e => rw [error_bind] at h; exact absurd h (by simp)

/-- C9: decode never hands back a partially-populated Alignment. In the
`Except` embedding a failed decode returns only the error; this theorem
checks the complement: whenever `read_alignment` does return an
Alignment, every one of the four segment collections was successfully
rebuilt from the record's corresponding array, element for element. -/
theorem c9_no_partial_result (d : JSON) (a : Alignment)
    (h : read_alignment d = .ok a) :
    ∃ cc c wc w : List JSON,
      getArr d "chars_cleaned" = .ok cc ∧ a.chars_cleaned.length = cc.length ∧
      getArr d "chars" = .ok c ∧ a.chars.length = c.length ∧
      getArr d "words_cleaned" = .ok wc ∧ a.words_cleaned.length = wc.length ∧
      getArr d "words" = .ok w ∧ a.words.length = w.length := by
  simp only [read_alignment, read_segments] at h
  obtain ⟨i, _, h⟩ := bind_eq_ok h
  obtain ⟨r, _, h⟩ := bind_eq_ok h
  obtain ⟨nmf, _, h⟩ := bind_eq_ok h
  obtain ⟨nas, _, h⟩ := bind_eq_ok h
  obtain ⟨sr, _, h⟩ := bind_eq_ok h
  obtain ⟨ps, _, h⟩ := bind_eq_ok h
  obtain ⟨ccs, hccsb, h⟩ := bind_eq_ok h
  obtain ⟨ccj, hccj, hccs⟩ := bind_eq_ok hccsb
  obtain ⟨cs, hcsb, h⟩ := bind_eq_ok h
  obtain ⟨cj, hcj, hcs⟩ := bind_eq_ok hcsb
  obtain ⟨wcs, hwcsb, h⟩ := bind_eq_ok h
  obtain ⟨wcj, hwcj, hwcs⟩ := bind_eq_ok hwcsb
  obtain ⟨ws, hwsb, h⟩ := bind_eq_ok h
  obtain ⟨wj, hwj, hws⟩ := bind_eq_ok hwsb
  have ha : { base_alignment i r nmf nas sr ps with
      chars_cleaned := ccs, chars := cs,
      words_cleaned := wcs, words := ws } = a := by
    simpa using h
  subst ha
  exact ⟨ccj, cj, wcj, wj, hccj, mapExcept_length hccs,
    hcj, mapExcept_length hcs, hwcj, mapExcept_length hwcs,
    hwj, mapExcept_length hws⟩

/-- A small well-formed record with empty collections. -/
def D9 : JSON := mkRecord "x" "r" 10 5 2 0 [] [] [] []

theorem c9_no_partial_result_witness :
    read_alignment D9 = .ok (base_alignment "x" "r" 10 5 2 0) ∧
    (∃ cc c wc w : List JSON,
      getArr D9 "chars_cleaned" = .ok cc ∧
        (base_alignment "x" "r" 10 5 2 0).chars_cleaned.length = cc.length ∧
      getArr D9 "chars" = .ok c ∧
        (base_alignment "x" "r" 10 5 2 0).chars.length = c.length ∧
      getArr D9 "words_cleaned" = .ok wc ∧
        (base_alignment "x" "r" 10 5 2 0).words_cleaned.length = wc.length ∧
      getArr D9 "words" = .ok w ∧
        (base_alignment "x" "r" 10 5 2 0).words.length = w.length) :=
  ⟨rfl, c9_no_partial_result D9 (base_alignment "x" "r" 10 5 2 0) rfl⟩

/-- The keys of the per-segment objects, in the order `dict_to_segment`
reads them. -/
def segKeys : List String := ["start", "end", "label", "score"]

/-- The scalar keys of the record, in the order `read_alignment` reads
them. -/
def scalarKeys : List String :=
  ["id", "recognised", "n_model_frames", "n_audio_samples",
   "sampling_rate", "partition_score"]

/-- The collection keys of the record, in the order `read_alignment`
reads them. -/
def collKeys : List String := ["chars_cleaned", "chars", "words_cleaned", "words"]

/-- Two segment objects agreeing on the four documented keys. -/
def SegAgree (s t : JSON) : Prop := ∀ k ∈ segKeys, dictGet s k = dictGet t k

/-- Two records agreeing on a collection key: either the raw values are
equal, or both are arrays of the same length whose entries agree
pairwise on the documented segment keys. -/
def CollAgree (d d' : JSON) (k : String) : Prop :=
  dictGet d k = dictGet d' k ∨
  ∃ xs ys, dictGet d k = .ok (.arr xs) ∧ dictGet d' k = .ok (.arr ys) ∧
    List.Forall₂ SegAgree xs ys

/-- `dict_to_segment` reads only the four documented segment keys. -/
theorem dict_to_segment_congr (a : Alignment) {s t : JSON}
    (h : SegAgree s t) :
    dict_to_segment a s = dict_to_segment a t := by
  simp only [dict_to_segment, getNum, getStr,
    h "start" (by simp [segKeys]), h "end" (by simp [segKeys]),
    h "label" (by simp [segKeys]), h "score" (by simp [segKeys])]

/-- A collection comprehension depends only on the collection's value
up to per-segment agreement on the documented keys. -/
theorem collAgree_read_segments {d d' : JSON} {k : String}
    (h : CollAgree d d' k) (a : Alignment) :
    read_segments a d k = read_segments a d' k := by
  rcases h with h | ⟨xs, ys, hx, hy, hfa⟩
  · simp only [read_segments, getArr, h]
  · simp only [read_segments, getArr, hx, hy, ok_bind, asArr]
    exact mapExcept_congr (hfa.imp (fun _ _ hst => dict_to_segment_congr a hst))

/-- C10: decode reads only the documented keys. Two records that agree
on the six scalar keys and, collection-wise, on each segment's four
documented keys decode identically; in particular extra top-level keys
or extra keys inside segment objects are ignored and cannot make decode
fail. -/
theorem c10_documented_keys_only (d d' : JSON)
    (hs : ∀ k ∈ scalarKeys, dictGet d k = dictGet d' k)
    (hc : ∀ k ∈ collKeys, CollAgree d d' k) :
    read_alignment d = read_alignment d' := by
  have h1 := hs "id" (by simp [scalarKeys])
  have h2 := hs "recognised" (by simp [scalarKeys])
  have h3 := hs "n_model_frames" (by simp [scalarKeys])
  have h4 := hs "n_audio_samples" (by simp [scalarKeys])
  have h5 := hs "sampling_rate" (by simp [scalarKeys])
  have h6 := hs "partition_score" (by simp [scalarKeys])
  have hr1 : ∀ a : Alignment,
      read_segments a d "chars_cleaned" = read_segments a d' "chars_cleaned" :=
    collAgree_read_segments (hc _ (by simp [collKeys]))
  have hr2 : ∀ a : Alignment,
      read_segments a d "chars" = read_segments a d' "chars" :=
    collAgree_read_segments (hc _ (by simp [collKeys]))
  have hr3 : ∀ a : Alignment,
      read_segments a d "words_cleaned" = read_segments a d' "words_cleaned" :=
    collAgree_read_segments (hc _ (by simp [collKeys]))
  have hr4 : ∀ a : Alignment,
      read_segments a d "words" = read_segments a d' "words" :=
    collAgree_read_segments (hc _ (by simp [collKeys]))
  simp only [read_alignment, getStr, getNum, h1, h2, h3, h4, h5, h6,
    hr1, hr2, hr3, hr4]

/-- A record whose `words` collection holds one segment object. -/
def DA : JSON := mkRecord "x" "r" 10 5 2 0 [] []
  [.obj [("label", .str "w"), ("start", .num 1),
         ("end", .num 2), ("score", .num 1)]] []

/-- The same record with an extra top-level key, a different key order,
and an extra key inside the `words` segment object. -/
def DB : JSON := .obj
  [("extra", .str "ignored"),
   ("id", .str "x"),
   ("recognised", .str "r"),
   ("partition_score", .num 0),
   ("sampling_rate", .num 2),
   ("n_audio_samples", .num 5),
   ("n_model_frames", .num 10),
   ("chars", .arr []),
   ("chars_cleaned", .arr []),
   ("words_cleaned", .arr []),
   ("words", .arr
     [.obj [("score", .num 1), ("label", .str "w"), ("start", .num 1),
            ("end", .num 2), ("extra2", .num 7)]])]

theorem c10_documented_keys_only_witness :
    read_alignment DA = read_alignment DB :=
  c10_documented_keys_only DA DB
    (by
      intro k hk
      simp only [scalarKeys, List.mem_cons, List.not_mem_nil, or_false] at hk
      rcases hk with rfl | rfl | rfl | rfl | rfl | rfl <;> rfl)
    (by
      intro k hk
      simp only [collKeys, List.mem_cons, List.not_mem_nil, or_false] at hk
      rcases hk with rfl | rfl | rfl | rfl
      · exact Or.inl rfl
      · exact Or.inl rfl
      · exact Or.inl rfl
      · refine Or.inr ⟨_, _, rfl, rfl, ?_⟩
        refine List.Forall₂.cons ?_ List.Forall₂.nil
        intro k hk
        simp only [segKeys, List.mem_cons, List.not_mem_nil, or_false] at hk
        rcases hk with rfl | rfl | rfl | rfl <;> rfl)

/-! ## Lemmas about the path model -/

theorem splitSlash_no_slash :
    ∀ (l cur : List Char), '/' ∉ l → splitSlash cur l = [cur ++ l] := by
  intro l
  induction l with
  | nil => intro cur _; simp [splitSlash]
  | cons c cs ih =>
    intro cur h
    have hc : c ≠ '/' := fun hc => h (hc ▸ List.mem_cons_self c cs)
    rw [splitSlash, if_neg hc, ih _ (fun hm => h (List.mem_cons_of_mem _ hm))]
    simp

theorem no_slash_mem_splitSlash :
    ∀ (l cur : List Char), '/' ∉ cur → ∀ p ∈ splitSlash cur l, '/' ∉ p := by
  intro l
  induction l with
  | nil =>
    intro cur hcur p hp
    rw [splitSlash, List.mem_singleton] at hp
    exact hp ▸ hcur
  | cons c cs ih =>
    intro cur hcur p hp
    by_cases hc : c = '/'
    · subst hc
      rw [splitSlash, if_pos rfl] at hp
      rcases List.mem_cons.mp hp with rfl | hp
      · exact hcur
      · exact ih [] (by simp) p hp
    · rw [splitSlash, if_neg hc] at hp
      refine ih (cur ++ [c]) ?_ p hp
      intro hm
      rcases List.mem_append.mp hm with hm | hm
      · exact hcur hm
      · rw [List.mem_singleton] at hm
        exact hc hm.symm

/-- Every parsed component is non-empty, is not `.`, and contains no
slash. -/
theorem mem_components (s : String) (c : List Char)
    (h : c ∈ (parsePyPath s).components) :
    c ≠ [] ∧ c ≠ ['.'] ∧ '/' ∉ c := by
  simp only [parsePyPath] at h
  have h1 := List.of_mem_filter h
  have h2 := List.mem_of_mem_filter h
  have h3 : c ≠ [] ∧ c ≠ ['.'] := of_decide_eq_true h1
  exact ⟨h3.1, h3.2, no_slash_mem_splitSlash s.data [] (by simp) c h2⟩

/-- Parsing `name + ".json"` for a non-empty slash-free `name` yields a
relative single-component path. -/
theorem parsePyPath_name_json (l : List Char) (hl : l ≠ []) (hsl : '/' ∉ l) :
    parsePyPath (String.mk (l ++ ".json".data)) =
      ⟨false, [l ++ ".json".data]⟩ := by
  have hnj : '/' ∉ (l ++ ".json".data) := by
    intro hm
    rcases List.mem_append.mp hm with hm | hm
    · exact hsl hm
    · revert hm; decide
  obtain ⟨c, l', rfl⟩ := List.exists_cons_of_ne_nil hl
  have hc : c ≠ '/' := fun hc => hsl (hc ▸ List.mem_cons_self c l')
  have hdata : (String.mk ((c :: l') ++ ".json".data)).data =
      (c :: l') ++ ".json".data := rfl
  unfold parsePyPath
  rw [hdata]
  have hne2 : (c :: l') ++ ".json".data ≠ ['.'] := by
    intro h
    have := congrArg List.length h
    simp at this
  congr 1
  · simp [hc]
  · rw [splitSlash_no_slash _ _ hnj]
    simp [List.filter, hne2]

/-- Closed form of `alignment_filename` on a normal-form id: the root's
components, then the id's leading components, then the id's final
component with `.json` appended. -/
theorem alignment_filename_normal (root : PyPath) (id : String)
    (habs : (parsePyPath id).absolute = false)
    (init : List (List Char)) (l : List Char)
    (hcs : (parsePyPath id).components = init ++ [l])
    (hl : l ≠ []) (hsl : '/' ∉ l) :
    alignment_filename root id =
      ⟨root.absolute, (root.components ++ init) ++ [l ++ ".json".data]⟩ := by
  have hfile : root.divString id =
      ⟨root.absolute, root.components ++ (init ++ [l])⟩ := by
    simp only [PyPath.divString, habs, hcs]
    simp
  have hname : (⟨root.absolute, root.components ++ (init ++ [l])⟩ : PyPath).name = l := by
    simp only [PyPath.name]
    rw [List.getLast?_append_of_ne_nil _ (by simp), List.getLast?_concat]
    rfl
  have hparent : (⟨root.absolute, root.components ++ (init ++ [l])⟩ : PyPath).parent =
      ⟨root.absolute, root.components ++ init⟩ := by
    simp only [PyPath.parent]
    rw [List.dropLast_append_of_ne_nil _ (by simp), List.dropLast_concat]
  simp only [alignment_filename]
  rw [hfile, hname, hparent]
  simp only [PyPath.divString, parsePyPath_name_json l hl hsl]
  simp

/-- C5 counterexample: the mapping is not injective on arbitrary id
strings for a fixed root — the distinct ids `a` and `./a` collide at
`out/a.json`, because `pathlib` path normalisation drops `.`
components. -/
theorem c5_counterexample :
    alignment_filename (parsePyPath "out") "a" =
      alignment_filename (parsePyPath "out") "./a" ∧
    "a" ≠ "./a" := by
  constructor
  · rfl
  · decide

/-- C5 amended: the mapping is a pure function of `(root, id)` appending
`.json` to the final component and preserving the intermediate ones
(`"audio/one.mp3"` under `"out"` maps to `"out/audio/one.mp3.json"`),
and it is injective per root on ids in normal form — relative, at least
one component, and equal to the `/`-join of their parsed components.
Distinct id strings that denote the same path after normalisation (such
as `"a"` and `"./a"`, doubled or trailing slashes) do collide, so
injectivity over arbitrary id strings fails. -/
theorem c5_location_mapping :
    alignment_filename (parsePyPath "out") "audio/one.mp3" =
      parsePyPath "out/audio/one.mp3.json" ∧
    ∀ (root : PyPath) (id1 id2 : String), NormalId id1 → NormalId id2 →
      id1 ≠ id2 →
      alignment_filename root id1 ≠ alignment_filename root id2 := by
  refine ⟨rfl, ?_⟩
  intro root id1 id2 h1 h2 hne heq
  obtain ⟨ha1, hn1, hj1⟩ := h1
  obtain ⟨ha2, hn2, hj2⟩ := h2
  rcases List.eq_nil_or_concat (parsePyPath id1).components with hc1 | ⟨init1, l1, hc1⟩
  · exact hn1 hc1
  rcases List.eq_nil_or_concat (parsePyPath id2).components with hc2 | ⟨init2, l2, hc2⟩
  · exact hn2 hc2
  rw [List.concat_eq_append] at hc1 hc2
  have hm1 : l1 ∈ (parsePyPath id1).components := by rw [hc1]; simp
  have hm2 : l2 ∈ (parsePyPath id2).components := by rw [hc2]; simp
  obtain ⟨hl1ne, -, hl1sl⟩ := mem_components id1 l1 hm1
  obtain ⟨hl2ne, -, hl2sl⟩ := mem_components id2 l2 hm2
  rw [alignment_filename_normal root id1 ha1 init1 l1 hc1 hl1ne hl1sl,
    alignment_filename_normal root id2 ha2 init2 l2 hc2 hl2ne hl2sl] at heq
  have hcomp : (root.components ++ init1) ++ [l1 ++ ".json".data] =
      (root.components ++ init2) ++ [l2 ++ ".json".data] :=
    congrArg PyPath.components heq
  obtain ⟨hinit, hlast⟩ := List.append_inj' hcomp rfl
  have hinit' : init1 = init2 := List.append_cancel_left hinit
  have hl : l1 = l2 := by
    have hl' : l1 ++ ".json".data = l2 ++ ".json".data := by
      simpa using hlast
    exact List.append_left_injective _ hl'
  have hcseq : (parsePyPath id1).components = (parsePyPath id2).components := by
    rw [hc1, hc2, hinit', hl]
  have : id1 = id2 := String.ext (by rw [hj1, hj2, hcseq])
  exact hne this

theorem c5_location_mapping_witness :
    NormalId "a" ∧ NormalId "b" ∧ ("a" : String) ≠ "b" ∧
    alignment_filename (parsePyPath "out") "a" ≠
      alignment_filename (parsePyPath "out") "b" :=
  ⟨by decide, by decide, by decide,
    c5_location_mapping.2 (parsePyPath "out") "a" "b"
      (by decide) (by decide) (by decide)⟩

end Timething
